import Mathlib

/-!
# A shallow embedding of the `dynamic_flag` library core

This file embeds the C sources of the `dynamic_flag` library
(`src/dynamic_flag.c`, `include/dynamic_flag.h`) in Lean 4 and proves
properties of the embedded definitions.

Modelling conventions:
* Machine integers (`uint64_t`, `uintptr_t`) are modelled as `Nat`, with
  explicit reduction modulo `2^64` exactly where the C code can overflow
  or underflow (counter increments, the `first_page - 1` / `last_page + 1`
  arithmetic in `amortize`).
* C strings are modelled as `List Char`.  The `name_doc` field of a patch
  record (flag name, NUL, docstring, NUL) is modelled as the pair of its
  two component strings `name` and `doc`.
* Pointers to patch records are modelled by the record's index in the
  global `dynamic_flag_list` section (the C code itself converts between
  the two via `record - __start_dynamic_flag_list`).
* `assert` failures (which abort the process) are modelled by `Option`:
  a function that can trip an assertion returns `none` in that case.
* The process-wide library state (`counts.data`, `counts.size`) is
  modelled by `Option (List PatchCount)`: `none` is the pristine state
  with `counts.data == NULL` and `counts.size == 0`.
-/

namespace DynamicFlag

/-- `2^64`, the modulus of `uint64_t` / `uintptr_t` arithmetic. -/
def U64 : Nat := 2 ^ 64

/-- `DYNAMIC_FLAG_VALUE_ACTIVE` for the preferred asm-goto implementation
(`DYNAMIC_FLAG_IMPLEMENTATION_STYLE == 2`): the `jmp rel32` opcode. -/
def DYNAMIC_FLAG_VALUE_ACTIVE : Nat := 0xe9

/-- `DYNAMIC_FLAG_VALUE_INACTIVE` for the preferred asm-goto implementation:
the `testl $..., %eax` opcode. -/
def DYNAMIC_FLAG_VALUE_INACTIVE : Nat := 0xa9

/-- `HOOK_SIZE` for the preferred asm-goto implementation: a 5-byte
`jmp rel32` / `testl $imm32, %eax` instruction. -/
def HOOK_SIZE : Nat := 5

/-- `struct patch_record`: one immutable record per flag use-site.
`name` and `doc` together model the `name_doc` field (the flag name
followed, after its NUL terminator, by the docstring). -/
structure PatchRecord where
  hook : Nat
  destination : Nat
  name : List Char
  doc : List Char
  initial_opcode : Nat
  flipped : Nat
  deriving Repr, DecidableEq, Inhabited

/-- `struct patch_count`: the two per-record counters. -/
structure PatchCount where
  activation : Nat
  unhook : Nat
  deriving Repr, DecidableEq, Inhabited

/-- The process-wide counter store `counts`: `none` models
`counts.data == NULL && counts.size == 0` (library not yet initialised). -/
abbrev LibState := Option (List PatchCount)

/-- `counts.size` of a library state. -/
def countsSize : LibState → Nat
  | none => 0
  | some cs => cs.length

end DynamicFlag

namespace DynamicFlag

/-! ## Controller loops (`activate_all`, `deactivate_all`, `unhook_all`,
`rehook_all`), `src/dynamic_flag.c` lines 450-544.

Each loop walks a `patch_list` of matched records (modelled as the list of
their indices `offset = record - __start_dynamic_flag_list`) and updates
`counts.data[offset]`.  The `activate_all` / `deactivate_all` loops also
collect the records whose counter transition requires an instruction
rewrite into the `to_patch` list, in iteration order. -/

/-- The loop body of `activate_all`: for each record, skip it when
`counts.data[offset].unhook > 0`; otherwise `counts.data[offset].activation++`
(a `uint64_t` post-increment, i.e. mod-`2^64`), pushing the record onto
`to_patch` when the pre-increment value was `0`. -/
def processActivate : List PatchCount → List Nat → List PatchCount × List Nat
  | cs, [] => (cs, [])
  | cs, i :: rest =>
    let c := cs.getD i default
    if c.unhook > 0 then
      processActivate cs rest
    else
      let cs' := cs.set i ⟨(c.activation + 1) % U64, c.unhook⟩
      let r := processActivate cs' rest
      (r.1, if c.activation = 0 then i :: r.2 else r.2)

/-- The loop body of `deactivate_all`: for each record, when
`counts.data[offset].activation > 0`, pre-decrement it and push the record
onto `to_patch` when the new value is `0`; otherwise leave the slot alone. -/
def processDeactivate : List PatchCount → List Nat → List PatchCount × List Nat
  | cs, [] => (cs, [])
  | cs, i :: rest =>
    let c := cs.getD i default
    if c.activation > 0 then
      let cs' := cs.set i ⟨c.activation - 1, c.unhook⟩
      let r := processDeactivate cs' rest
      (r.1, if c.activation - 1 = 0 then i :: r.2 else r.2)
    else
      processDeactivate cs rest

/-- The loop body of `unhook_all`: `counts.data[offset].unhook++`
(a `uint64_t` increment, i.e. mod-`2^64`) for every matched record. -/
def processUnhook : List PatchCount → List Nat → List PatchCount
  | cs, [] => cs
  | cs, i :: rest =>
    let c := cs.getD i default
    processUnhook (cs.set i ⟨c.activation, (c.unhook + 1) % U64⟩) rest

/-- The loop body of `rehook_all`: decrement `counts.data[offset].unhook`
only when it is positive. -/
def processRehook : List PatchCount → List Nat → List PatchCount
  | cs, [] => cs
  | cs, i :: rest =>
    let c := cs.getD i default
    if c.unhook > 0 then
      processRehook (cs.set i ⟨c.activation, c.unhook - 1⟩) rest
    else
      processRehook cs rest

/-- `cmp_patches` sorts record pointers by `hook` address; `qsort` with that
comparator is modelled as an insertion sort of the record indices ordered by
the records' hook addresses. -/
def sortByHook (records : List PatchRecord) (arr : List Nat) : List Nat :=
  arr.insertionSort fun i j =>
    (records.getD i default).hook ≤ (records.getD j default).hook

/-- `activate_all` (lines 450-479): sort the matched records by hook
address, bump activation counts of non-unhooked records, and return the
final counter array together with the `to_patch` list handed to
`amortize(to_patch, activate)`.  The C function's return value is
`to_patch->size`. -/
def activate_all (records : List PatchRecord) (cs : List PatchCount)
    (arr : List Nat) : List PatchCount × List Nat :=
  processActivate cs (sortByHook records arr)

/-- `deactivate_all` (lines 481-508), analogously. -/
def deactivate_all (records : List PatchRecord) (cs : List PatchCount)
    (arr : List Nat) : List PatchCount × List Nat :=
  processDeactivate cs (sortByHook records arr)

/-- `unhook_all` (lines 529-544); the C function returns `records->size`. -/
def unhook_all (cs : List PatchCount) (arr : List Nat) : List PatchCount :=
  processUnhook cs arr

/-- `rehook_all` (lines 510-527); the C function returns `records->size`. -/
def rehook_all (cs : List PatchCount) (arr : List Nat) : List PatchCount :=
  processRehook cs arr

end DynamicFlag

namespace DynamicFlag

/-! ## The batched patch engine `amortize`

`src/dynamic_flag.c` lines 298-347 and the documented variant of the same
function at `amortize` in the other copy of `dynamic_flag.c` shipped in the
repository (lines 401-468).  The function walks the (sorted) record list,
maintaining an accumulated page range `[first_page, last_page]` and the
start index `section_begin` of the current batch; `PATCH()` emits one
`mprotect(first_page * page_size, (1 + last_page - first_page) * page_size)`
pair around the batch's callback invocations.

`uintptr_t` arithmetic wraps modulo `2^64`; `first_page` starts at
`UINTPTR_MAX` and `last_page` at `0`. -/

/-- `UINTPTR_MAX`. -/
def UINTPTR_MAX : Nat := U64 - 1

/-- `x - 1` in `uintptr_t` arithmetic (wraps at `0`). -/
def usub1 (x : Nat) : Nat := (x + (U64 - 1)) % U64

/-- `x + 1` in `uintptr_t` arithmetic (wraps at `UINTPTR_MAX`). -/
def uadd1 (x : Nat) : Nat := (x + 1) % U64

/-- One batch emitted by `amortize`: the page range passed to the two
`mprotect` calls and the hook addresses whose callback runs inside them. -/
structure AmortizeBatch where
  firstPage : Nat
  lastPage : Nat
  hooks : List Nat
  deriving Repr, DecidableEq, Inhabited

/-- The merge condition of `amortize` in `src/dynamic_flag.c` (line 329):
`(first_page - 1) <= begin_page || end_page <= (last_page + 1)`. -/
def mergeCondSrc (firstPage lastPage beginPage endPage : Nat) : Bool :=
  usub1 firstPage ≤ beginPage || endPage ≤ uadd1 lastPage

/-- The merge condition of the documented `amortize` variant in the
repository's other copy of `dynamic_flag.c`:
`empty_range || can_extend`, where `empty_range = first_page > last_page`
and `can_extend = (first_page - 1) <= begin_page && end_page <= (last_page + 1)`. -/
def mergeCondDoc (firstPage lastPage beginPage endPage : Nat) : Bool :=
  firstPage > lastPage ||
    (usub1 firstPage ≤ beginPage && endPage ≤ uadd1 lastPage)

/-- The loop of `amortize`, parameterised by the merge condition.  The state
is the remaining hook addresses, the accumulated `[first_page, last_page]`
range, and the current section's hooks in reverse iteration order; `PATCH()`
(which emits a batch only when `section_begin < i`, i.e. when the section is
non-empty) corresponds to the `sec.reverse` emissions. -/
def amortizeLoop (merge : Nat → Nat → Nat → Nat → Bool)
    (pageSize : Nat) :
    List Nat → Nat → Nat → List Nat → List AmortizeBatch
  | [], firstPage, lastPage, sec =>
    if sec.isEmpty then [] else [⟨firstPage, lastPage, sec.reverse⟩]
  | h :: rest, firstPage, lastPage, sec =>
    let beginPage := h / pageSize
    let endPage := (h + HOOK_SIZE - 1) / pageSize
    if merge firstPage lastPage beginPage endPage then
      amortizeLoop merge pageSize rest (min firstPage beginPage)
        (max lastPage endPage) (h :: sec)
    else
      (if sec.isEmpty then [] else [⟨firstPage, lastPage, sec.reverse⟩]) ++
        amortizeLoop merge pageSize rest beginPage endPage [h]

/-- `amortize` as in `src/dynamic_flag.c` (lines 298-347): the sequence of
`mprotect` batches produced for a list of hook addresses. -/
def amortizeSrc (pageSize : Nat) (hooks : List Nat) : List AmortizeBatch :=
  amortizeLoop mergeCondSrc pageSize hooks UINTPTR_MAX 0 []

/-- `amortize` as in the repository's documented copy of `dynamic_flag.c`
(lines 401-468, with the `empty_range || can_extend` merge condition). -/
def amortizeDoc (pageSize : Nat) (hooks : List Nat) : List AmortizeBatch :=
  amortizeLoop mergeCondDoc pageSize hooks UINTPTR_MAX 0 []

/-- The page interval `[hook / page_size, (hook + HOOK_SIZE - 1) / page_size]`
occupied by one hook instruction. -/
def hookPages (pageSize hook : Nat) : Nat × Nat :=
  (hook / pageSize, (hook + HOOK_SIZE - 1) / pageSize)

end DynamicFlag

namespace DynamicFlag

/-! ## Regular-expression matching

`find_records` delegates matching to the C library's `regcomp` / `regexec`
(POSIX extended regular expressions, `REG_EXTENDED | REG_NOSUB`), which is
not part of this repository. -/

/-- One ERE atom of the modelled fragment: a literal character or `.`. -/
inductive EREAtom where
  | lit : Char → EREAtom
  | dot : EREAtom
  deriving Repr, DecidableEq

/-- Modelled from the spec: a compiled POSIX extended regular expression of
the fragment the spec exercises (literals, `.`, postfix `*`, and the `^`
anchor), standing in for the opaque `regex_t` produced by the C library's
`regcomp`, which is not part of this repository.  `atoms` pairs each atom
with its `*` flag; `anchored` records a leading `^`. -/
structure ERE where
  anchored : Bool
  atoms : List (EREAtom × Bool)
  deriving Repr, DecidableEq

/-- Modelled from the spec: parse the body of a POSIX ERE of the modelled
fragment.  A `*` with no preceding atom is invalid (POSIX leaves it
undefined; the model rejects it, standing in for a `regcomp` failure).
Every character other than `.` and `*` is taken literally. -/
def parseAtoms : List Char → Option (List (EREAtom × Bool))
  | [] => some []
  | '*' :: _ => none
  | c :: '*' :: rest =>
    (parseAtoms rest).map fun l =>
      ((if c = '.' then EREAtom.dot else EREAtom.lit c), true) :: l
  | c :: rest =>
    (parseAtoms rest).map fun l =>
      ((if c = '.' then EREAtom.dot else EREAtom.lit c), false) :: l

/-- Modelled from the spec: `regcomp` on the modelled ERE fragment.  A
pattern starting with `^` is anchored at the start of the subject string. -/
def regcompModel : List Char → Option ERE
  | '^' :: rest => (parseAtoms rest).map fun l => ⟨true, l⟩
  | p => (parseAtoms p).map fun l => ⟨false, l⟩

/-- Does an atom match one character? -/
def atomMatches : EREAtom → Char → Bool
  | EREAtom.lit c, d => c = d
  | EREAtom.dot, _ => true

/-- Modelled from the spec: the Kleene-star loop.  `starLoop a k s` holds
when some (possibly empty) run of characters matched by `a` can be peeled
off the front of `s` with the continuation `k` accepting the remainder. -/
def starLoop (a : EREAtom) (k : List Char → Bool) : List Char → Bool
  | [] => k []
  | c :: s => k (c :: s) || (atomMatches a c && starLoop a k s)

/-- Modelled from the spec: does the atom sequence match some prefix of
`s`?  (POSIX `regexec` reports success as soon as the expression matches a
substring; it does not require consuming the whole subject.) -/
def matchSeq : List (EREAtom × Bool) → List Char → Bool
  | [], _ => true
  | (_, false) :: _, [] => false
  | (a, false) :: re, c :: s => atomMatches a c && matchSeq re s
  | (a, true) :: re, s => starLoop a (matchSeq re) s

/-- Modelled from the spec: does the atom sequence match a prefix of some
suffix of `s` (the unanchored `regexec` search)? -/
def searchSeq (re : List (EREAtom × Bool)) : List Char → Bool
  | [] => matchSeq re []
  | c :: s => matchSeq re (c :: s) || searchSeq re s

/-- Modelled from the spec: `regexec(&regex, s, 0, NULL, 0) != REG_NOMATCH`
for a compiled expression: anchored expressions must match a prefix of `s`,
unanchored ones a prefix of any suffix of `s`. -/
def regexecModel (re : ERE) (s : List Char) : Bool :=
  if re.anchored then matchSeq re.atoms s else searchSeq re.atoms s

/-- `compile_regex` (`src/dynamic_flag.c` lines 354-370): a pattern whose
first character is not `^` is replaced by `"^" + pattern` (via `asprintf`)
before being handed to `regcomp`. -/
def compile_regex (pattern : List Char) : Option ERE :=
  let pattern' := if pattern.head? = some '^' then pattern else '^' :: pattern
  regcompModel pattern'

/-- A record matches a compiled regex when `regexec` succeeds on its
`name_doc` string (i.e. on its name: `regexec` stops at the NUL that
terminates the name). -/
def recordMatches (re : ERE) (r : PatchRecord) : Bool :=
  regexecModel re r.name

/-- `find_records` (`src/dynamic_flag.c` lines 372-392): compile the
pattern (failure reported as `-1` without mutating anything) and collect
the indices of the records whose name matches, in table order. -/
def find_records (records : List PatchRecord) (pattern : List Char) :
    Option (List Nat) :=
  match compile_regex pattern with
  | none => none
  | some re =>
    some (((List.range records.length).filter fun i =>
      recordMatches re (records.getD i default)))

end DynamicFlag

namespace DynamicFlag

/-! ## Lazy initialisation and the public entry points

`patch_list_create` (lines 86-97) asserts `counts.size > 0` ("Must
initialize dynamic_flag first") before allocating; every public entry point
calls it *before* `lock()` (lines 120-138), which is where the lazy
construction of the counter array lives.  A tripped assertion aborts the
process; the model returns `none`. -/

/-- `default_patch` (lines 242-268) as it acts on one counter slot during
`init_all`: an `initial_opcode` equal to `DYNAMIC_FLAG_VALUE_ACTIVE` sets
`activation` to `0` for flipped records and `1` otherwise (and patches the
hook to the active encoding); `DYNAMIC_FLAG_VALUE_INACTIVE` the mirror
image; any other opcode trips an assertion. -/
def default_patch_count (r : PatchRecord) : Option PatchCount :=
  if r.initial_opcode = DYNAMIC_FLAG_VALUE_ACTIVE then
    some ⟨if r.flipped ≠ 0 then 0 else 1, 0⟩
  else if r.initial_opcode = DYNAMIC_FLAG_VALUE_INACTIVE then
    some ⟨if r.flipped ≠ 0 then 1 else 0, 0⟩
  else
    none

/-- `init_all` (lines 434-448) composed with the `calloc` in `lock()`: the
counter array built for the whole record table.  (`find_records("")`
matches every record: `compile_regex` turns the empty pattern into `"^"`.) -/
def initCounts : List PatchRecord → Option (List PatchCount)
  | [] => some []
  | r :: rest =>
    match default_patch_count r, initCounts rest with
    | some c, some cs => some (c :: cs)
    | _, _ => none

/-- `lock()` (lines 120-138): on the first call (`counts.data == NULL`)
allocate and initialise the counter array; otherwise leave it alone.
`none` as a result models an assertion failure inside `init_all`. -/
def lock (records : List PatchRecord) : LibState → Option (List PatchCount)
  | none => initCounts records
  | some cs => some cs

/-- `dynamic_flag_init_lib` (lines 801-808): `lock(); unlock();`. -/
def dynamic_flag_init_lib (records : List PatchRecord) (st : LibState) :
    Option LibState :=
  (lock records st).map some

/-- The result of one public mutator call: the `ssize_t` return value, the
library state afterwards, and the `to_patch` list of records whose hook
instruction was rewritten (empty for `unhook`/`rehook`, which never touch
machine code). -/
structure CallResult where
  ret : Int
  state : LibState
  patched : List Nat
  deriving Repr, DecidableEq

/-- `dynamic_flag_activate` (lines 546-564): `patch_list_create` (assert
`counts.size > 0`), then `find_records` (a compile failure returns `-1`
with nothing mutated), then `activate_all` under the lock, and finally
`r = acc->size`, the number of matched records. -/
def dynamic_flag_activate (records : List PatchRecord) (st : LibState)
    (pattern : List Char) : Option CallResult :=
  if countsSize st = 0 then none
  else
    match find_records records pattern with
    | none => some ⟨-1, st, []⟩
    | some matched =>
      match lock records st with
      | none => none
      | some cs =>
        let r := activate_all records cs matched
        some ⟨(matched.length : Int), some r.1, r.2⟩

/-- `dynamic_flag_deactivate` (lines 566-584), analogously. -/
def dynamic_flag_deactivate (records : List PatchRecord) (st : LibState)
    (pattern : List Char) : Option CallResult :=
  if countsSize st = 0 then none
  else
    match find_records records pattern with
    | none => some ⟨-1, st, []⟩
    | some matched =>
      match lock records st with
      | none => none
      | some cs =>
        let r := deactivate_all records cs matched
        some ⟨(matched.length : Int), some r.1, r.2⟩

/-- `dynamic_flag_unhook` (lines 586-604): like the above but through
`unhook_all`, which never patches machine code. -/
def dynamic_flag_unhook (records : List PatchRecord) (st : LibState)
    (pattern : List Char) : Option CallResult :=
  if countsSize st = 0 then none
  else
    match find_records records pattern with
    | none => some ⟨-1, st, []⟩
    | some matched =>
      match lock records st with
      | none => none
      | some cs => some ⟨(matched.length : Int), some (unhook_all cs matched), []⟩

/-- `dynamic_flag_rehook` (lines 606-624), analogously. -/
def dynamic_flag_rehook (records : List PatchRecord) (st : LibState)
    (pattern : List Char) : Option CallResult :=
  if countsSize st = 0 then none
  else
    match find_records records pattern with
    | none => some ⟨-1, st, []⟩
    | some matched =>
      match lock records st with
      | none => none
      | some cs => some ⟨(matched.length : Int), some (rehook_all cs matched), []⟩

end DynamicFlag

namespace DynamicFlag

/-! ## Introspection (`cmp_patches_alpha`, `dynamic_flag_list_state`),
`src/dynamic_flag.c` lines 626-742. -/

/-- `strcmp` on the modelled strings, reduced to its sign. -/
def strcmpS : List Char → List Char → Int
  | [], [] => 0
  | [], _ :: _ => -1
  | _ :: _, [] => 1
  | a :: as, b :: bs =>
    if a.toNat < b.toNat then -1
    else if b.toNat < a.toNat then 1
    else strcmpS as bs

/-- `strrchr(s, c)` as the index of the last occurrence of `c` in `s`. -/
def lastIndexOf (c : Char) (s : List Char) : Option Nat :=
  match s with
  | [] => none
  | d :: rest =>
    match lastIndexOf c rest with
    | some i => some (i + 1)
    | none => if d = c then some 0 else none

/-- `strtoull(s, NULL, 10)` on the modelled strings: skip leading spaces,
consume a run of decimal digits (an empty run yields `0`), and clamp the
result to `ULLONG_MAX` (which `strtoull` returns on overflow). -/
def strtoullModel (s : List Char) : Nat :=
  let rec digits : List Char → Nat → Nat
    | d :: rest, acc => if d.isDigit then digits rest (acc * 10 + (d.toNat - 48)) else acc
    | [], acc => acc
  min (digits (s.dropWhile fun d => d = ' ') 0) (U64 - 1)

/-- `cmp_patches_alpha` (lines 626-693): compare two records' `name_doc`
strings roughly alphabetically.  If either name has no colon, or the two
last-colon offsets differ, plain `strcmp` decides.  Otherwise compare the
`kind:name@file` prefixes; on a tie put the record with the longer
docstring first (a record with no docstring last), and finally compare the
line numbers parsed from after the last colon. -/
def cmp_patches_alpha (a b : PatchRecord) : Int :=
  match lastIndexOf ':' a.name, lastIndexOf ':' b.name with
  | none, _ => strcmpS a.name b.name
  | some _, none => strcmpS a.name b.name
  | some ai, some bi =>
    if ai ≠ bi then strcmpS a.name b.name
    else
      let r := strcmpS (a.name.take ai) (b.name.take ai)
      if r ≠ 0 then r
      else
        let a_line := strtoullModel (a.name.drop (ai + 1))
        let b_line := strtoullModel (b.name.drop (bi + 1))
        let lineCmp : Int :=
          if a_line ≠ b_line then (if a_line < b_line then -1 else 1) else 0
        if a.doc.isEmpty && b.doc.isEmpty then lineCmp
        else if a.doc.isEmpty then 1
        else if b.doc.isEmpty then -1
        else if a.doc.length ≠ b.doc.length then
          (if a.doc.length > b.doc.length then -1 else 1)
        else lineCmp

/-- `qsort` with `cmp_patches_alpha`, modelled as an insertion sort of the
record indices. -/
def sortAlpha (records : List PatchRecord) (arr : List Nat) : List Nat :=
  arr.insertionSort fun i j =>
    cmp_patches_alpha (records.getD i default) (records.getD j default) ≤ 0

/-- One `struct dynamic_flag_state` entry as passed to the listing
callback. -/
structure FlagState where
  name : List Char
  doc : List Char
  activation : Nat
  unhook : Nat
  hook : Nat
  destination : Nat
  duplicate : Bool
  deriving Repr, DecidableEq, Inhabited

/-- The entry built for position `idx` of the sorted index list `sorted`:
all fields from the record and its counter slot, plus `duplicate = 1` iff
`idx > 0` and `strcmp` of the previous entry's name and this one's is `0`
(`strcmp` on `name_doc` stops at the NUL terminating the name). -/
def listEntry (records : List PatchRecord) (cs : List PatchCount)
    (sorted : List Nat) (idx : Nat) : FlagState :=
  let r := records.getD (sorted.getD idx 0) default
  { name := r.name
    doc := r.doc
    activation := (cs.getD (sorted.getD idx 0) default).activation
    unhook := (cs.getD (sorted.getD idx 0) default).unhook
    hook := r.hook
    destination := r.destination
    duplicate :=
      0 < idx &&
        strcmpS (records.getD (sorted.getD (idx - 1) 0) default).name r.name = 0 }

/-- `dynamic_flag_list_state` (lines 695-742) with an always-continue
callback that records the entries it is shown: `patch_list_create`
(assert), `find_records` (compile failure returns `-1` having emitted
nothing), sort by `cmp_patches_alpha`, then emit one entry per matched
record; the return value is the number of matched records. -/
def dynamic_flag_list_state (records : List PatchRecord) (st : LibState)
    (pattern : List Char) : Option (Int × List FlagState) :=
  if countsSize st = 0 then none
  else
    match find_records records pattern with
    | none => some (-1, [])
    | some matched =>
      match lock records st with
      | none => none
      | some cs =>
        let sorted := sortAlpha records matched
        some ((matched.length : Int),
          (List.range sorted.length).map (listEntry records cs sorted))

end DynamicFlag


namespace DynamicFlag

/-! ## Characterisation of the controller loops -/

/-- Abbreviation: the counter slot of record `j` (out-of-range reads give
the all-zero slot, matching `calloc` zero-initialisation). -/
def slot (cs : List PatchCount) (j : Nat) : PatchCount :=
  cs.getD j default

theorem slot_set_ne (cs : List PatchCount) {i j : Nat} (v : PatchCount)
    (h : i ≠ j) : slot (cs.set i v) j = slot cs j := by
  simp [slot, List.getD, List.getElem?_set_ne h]

theorem slot_set_self (cs : List PatchCount) {i : Nat} (v : PatchCount)
    (h : i < cs.length) : slot (cs.set i v) i = v := by
  simp [slot, List.getD, List.getElem?_set_self, h]

theorem processActivate_fst_length :
    ∀ (l : List Nat) (cs : List PatchCount),
      (processActivate cs l).1.length = cs.length
  | [], _ => rfl
  | i :: rest, cs => by
    simp only [processActivate]
    split
    · exact processActivate_fst_length rest cs
    · simpa using (processActivate_fst_length rest _).trans (List.length_set ..)

theorem processActivate_fst_not_mem :
    ∀ (l : List Nat) (cs : List PatchCount) (j : Nat), j ∉ l →
      slot (processActivate cs l).1 j = slot cs j
  | [], _, _, _ => rfl
  | i :: rest, cs, j, hj => by
    have hji : i ≠ j := fun h => hj (h ▸ List.mem_cons_self i rest)
    have hjr : j ∉ rest := fun h => hj (List.mem_cons_of_mem i h)
    simp only [processActivate]
    split
    · exact processActivate_fst_not_mem rest cs j hjr
    · show slot (processActivate _ rest).1 j = _
      rw [processActivate_fst_not_mem rest _ j hjr, slot_set_ne cs _ hji]

theorem processActivate_fst_mem :
    ∀ (l : List Nat) (cs : List PatchCount) (j : Nat), l.Nodup → j ∈ l →
      j < cs.length →
      slot (processActivate cs l).1 j =
        (if (slot cs j).unhook > 0 then slot cs j
         else ⟨((slot cs j).activation + 1) % U64, (slot cs j).unhook⟩)
  | [], _, _, _, hj, _ => absurd hj (List.not_mem_nil _)
  | i :: rest, cs, j, hnd, hj, hlt => by
    have hnd' := hnd
    rw [List.nodup_cons] at hnd'
    simp only [processActivate]
    rcases List.mem_cons.1 hj with hji | hjr
    · subst hji
      split
      · rw [processActivate_fst_not_mem rest cs j hnd'.1]
        simp_all [slot]
      · show slot (processActivate _ rest).1 j = _
        rw [processActivate_fst_not_mem rest _ j hnd'.1,
          slot_set_self cs _ hlt]
        simp_all [slot]
    · have hji : i ≠ j := fun h => hnd'.1 (h ▸ hjr)
      split
      · exact processActivate_fst_mem rest cs j hnd'.2 hjr hlt
      · show slot (processActivate _ rest).1 j = _
        rw [processActivate_fst_mem rest _ j hnd'.2 hjr (by simpa using hlt),
          slot_set_ne cs _ hji]

theorem processActivate_snd_mem :
    ∀ (l : List Nat) (cs : List PatchCount) (j : Nat), l.Nodup →
      (j ∈ (processActivate cs l).2 ↔
        j ∈ l ∧ (slot cs j).unhook = 0 ∧ (slot cs j).activation = 0)
  | [], _, _, _ => by simp [processActivate]
  | i :: rest, cs, j, hnd => by
    have hnd' := hnd
    rw [List.nodup_cons] at hnd'
    simp only [processActivate]
    split
    · rename_i hu
      rw [processActivate_snd_mem rest cs j hnd'.2]
      constructor
      · rintro ⟨h1, h2, h3⟩
        exact ⟨List.mem_cons_of_mem i h1, h2, h3⟩
      · rintro ⟨h1, h2, h3⟩
        rcases List.mem_cons.1 h1 with hji | hjr
        · subst hji
          change (slot cs j).unhook > 0 at hu
          omega
        · exact ⟨hjr, h2, h3⟩
    · rename_i hu
      change ¬(slot cs i).unhook > 0 at hu
      show j ∈ (if (slot cs i).activation = 0
          then i :: (processActivate _ rest).2
          else (processActivate _ rest).2) ↔ _
      by_cases hij : i = j
      · subst hij
        have hnm : i ∉ (processActivate
            (cs.set i ⟨((slot cs i).activation + 1) % U64, (slot cs i).unhook⟩)
              rest).2 := by
          rw [processActivate_snd_mem rest _ i hnd'.2]
          rintro ⟨h1, _, _⟩
          exact hnd'.1 h1
        split
        · rename_i ha
          constructor
          · intro _
            exact ⟨List.mem_cons_self _ _, by omega, ha⟩
          · intro _
            exact List.mem_cons_self _ _
        · rename_i ha
          constructor
          · intro hmem2
            exact absurd hmem2 hnm
          · rintro ⟨_, _, h3⟩
            exact absurd h3 ha
      · have hmem := processActivate_snd_mem rest
          (cs.set i ⟨((slot cs i).activation + 1) % U64, (slot cs i).unhook⟩)
          j hnd'.2
        rw [slot_set_ne cs _ hij] at hmem
        have hmc : (j ∈ rest ∧ (slot cs j).unhook = 0 ∧
              (slot cs j).activation = 0) ↔
            (j ∈ i :: rest ∧ (slot cs j).unhook = 0 ∧
              (slot cs j).activation = 0) := by
          constructor
          · rintro ⟨h1, h2, h3⟩
            exact ⟨List.mem_cons_of_mem i h1, h2, h3⟩
          · rintro ⟨h1, h2, h3⟩
            rcases List.mem_cons.1 h1 with hji | hjr
            · exact absurd hji.symm hij
            · exact ⟨hjr, h2, h3⟩
        split
        · constructor
          · intro h
            rcases List.mem_cons.1 h with h | h
            · exact absurd h.symm hij
            · exact hmc.1 (hmem.1 h)
          · intro h
            exact List.mem_cons.2 (Or.inr (hmem.2 (hmc.2 h)))
        · exact hmem.trans hmc

end DynamicFlag

namespace DynamicFlag

theorem processDeactivate_fst_length :
    ∀ (l : List Nat) (cs : List PatchCount),
      (processDeactivate cs l).1.length = cs.length
  | [], _ => rfl
  | i :: rest, cs => by
    simp only [processDeactivate]
    split
    · simpa using (processDeactivate_fst_length rest _).trans (List.length_set ..)
    · exact processDeactivate_fst_length rest cs

theorem processDeactivate_fst_not_mem :
    ∀ (l : List Nat) (cs : List PatchCount) (j : Nat), j ∉ l →
      slot (processDeactivate cs l).1 j = slot cs j
  | [], _, _, _ => rfl
  | i :: rest, cs, j, hj => by
    have hji : i ≠ j := fun h => hj (h ▸ List.mem_cons_self i rest)
    have hjr : j ∉ rest := fun h => hj (List.mem_cons_of_mem i h)
    simp only [processDeactivate]
    split
    · show slot (processDeactivate _ rest).1 j = _
      rw [processDeactivate_fst_not_mem rest _ j hjr, slot_set_ne cs _ hji]
    · exact processDeactivate_fst_not_mem rest cs j hjr

theorem processDeactivate_fst_mem :
    ∀ (l : List Nat) (cs : List PatchCount) (j : Nat), l.Nodup → j ∈ l →
      j < cs.length →
      slot (processDeactivate cs l).1 j =
        (if (slot cs j).activation > 0
         then ⟨(slot cs j).activation - 1, (slot cs j).unhook⟩
         else slot cs j)
  | [], _, _, _, hj, _ => absurd hj (List.not_mem_nil _)
  | i :: rest, cs, j, hnd, hj, hlt => by
    have hnd' := hnd
    rw [List.nodup_cons] at hnd'
    simp only [processDeactivate]
    rcases List.mem_cons.1 hj with hji | hjr
    · subst hji
      split
      · show slot (processDeactivate _ rest).1 j = _
        rw [processDeactivate_fst_not_mem rest _ j hnd'.1,
          slot_set_self cs _ hlt]
        simp_all [slot]
      · rw [processDeactivate_fst_not_mem rest cs j hnd'.1]
        simp_all [slot]
    · have hji : i ≠ j := fun h => hnd'.1 (h ▸ hjr)
      split
      · show slot (processDeactivate _ rest).1 j = _
        rw [processDeactivate_fst_mem rest _ j hnd'.2 hjr (by simpa using hlt),
          slot_set_ne cs _ hji]
      · exact processDeactivate_fst_mem rest cs j hnd'.2 hjr hlt

theorem processDeactivate_snd_mem :
    ∀ (l : List Nat) (cs : List PatchCount) (j : Nat), l.Nodup →
      (j ∈ (processDeactivate cs l).2 ↔
        j ∈ l ∧ (slot cs j).activation = 1)
  | [], _, _, _ => by simp [processDeactivate]
  | i :: rest, cs, j, hnd => by
    have hnd' := hnd
    rw [List.nodup_cons] at hnd'
    simp only [processDeactivate]
    split
    · rename_i ha
      change (slot cs i).activation > 0 at ha
      show j ∈ (if (slot cs i).activation - 1 = 0
          then i :: (processDeactivate _ rest).2
          else (processDeactivate _ rest).2) ↔ _
      have hmem := processDeactivate_snd_mem rest
        (cs.set i ⟨(slot cs i).activation - 1, (slot cs i).unhook⟩) j hnd'.2
      by_cases hij : i = j
      · subst hij
        have hnm : i ∉ (processDeactivate
            (cs.set i ⟨(slot cs i).activation - 1, (slot cs i).unhook⟩)
              rest).2 := by
          rw [hmem]
          rintro ⟨h1, _⟩
          exact hnd'.1 h1
        split
        · rename_i hz
          constructor
          · intro _
            exact ⟨List.mem_cons_self _ _, by omega⟩
          · intro _
            exact List.mem_cons_self _ _
        · rename_i hz
          constructor
          · intro hmem2
            exact absurd hmem2 hnm
          · rintro ⟨_, h2⟩
            omega
      · rw [slot_set_ne cs _ hij] at hmem
        have hmc : (j ∈ rest ∧ (slot cs j).activation = 1) ↔
            (j ∈ i :: rest ∧ (slot cs j).activation = 1) := by
          constructor
          · rintro ⟨h1, h2⟩
            exact ⟨List.mem_cons_of_mem i h1, h2⟩
          · rintro ⟨h1, h2⟩
            rcases List.mem_cons.1 h1 with hji | hjr
            · exact absurd hji.symm hij
            · exact ⟨hjr, h2⟩
        split
        · constructor
          · intro h
            rcases List.mem_cons.1 h with h | h
            · exact absurd h.symm hij
            · exact hmc.1 (hmem.1 h)
          · intro h
            exact List.mem_cons.2 (Or.inr (hmem.2 (hmc.2 h)))
        · exact hmem.trans hmc
    · rename_i ha
      change ¬(slot cs i).activation > 0 at ha
      rw [processDeactivate_snd_mem rest cs j hnd'.2]
      constructor
      · rintro ⟨h1, h2⟩
        exact ⟨List.mem_cons_of_mem i h1, h2⟩
      · rintro ⟨h1, h2⟩
        rcases List.mem_cons.1 h1 with hji | hjr
        · subst hji
          omega
        · exact ⟨hjr, h2⟩

theorem processRehook_length :
    ∀ (l : List Nat) (cs : List PatchCount),
      (processRehook cs l).length = cs.length
  | [], _ => rfl
  | i :: rest, cs => by
    simp only [processRehook]
    split
    · simpa using (processRehook_length rest _).trans (List.length_set ..)
    · exact processRehook_length rest cs

theorem processRehook_not_mem :
    ∀ (l : List Nat) (cs : List PatchCount) (j : Nat), j ∉ l →
      slot (processRehook cs l) j = slot cs j
  | [], _, _, _ => rfl
  | i :: rest, cs, j, hj => by
    have hji : i ≠ j := fun h => hj (h ▸ List.mem_cons_self i rest)
    have hjr : j ∉ rest := fun h => hj (List.mem_cons_of_mem i h)
    simp only [processRehook]
    split
    · show slot (processRehook _ rest) j = _
      rw [processRehook_not_mem rest _ j hjr, slot_set_ne cs _ hji]
    · exact processRehook_not_mem rest cs j hjr

theorem processRehook_mem :
    ∀ (l : List Nat) (cs : List PatchCount) (j : Nat), l.Nodup → j ∈ l →
      j < cs.length →
      slot (processRehook cs l) j =
        ⟨(slot cs j).activation, (slot cs j).unhook - 1⟩
  | [], _, _, _, hj, _ => absurd hj (List.not_mem_nil _)
  | i :: rest, cs, j, hnd, hj, hlt => by
    have hnd' := hnd
    rw [List.nodup_cons] at hnd'
    simp only [processRehook]
    rcases List.mem_cons.1 hj with hji | hjr
    · subst hji
      split
      · show slot (processRehook _ rest) j = _
        rw [processRehook_not_mem rest _ j hnd'.1, slot_set_self cs _ hlt]
        rfl
      · rename_i hu
        change ¬(slot cs j).unhook > 0 at hu
        rw [processRehook_not_mem rest cs j hnd'.1]
        have : (slot cs j).unhook = 0 := by omega
        cases hsl : slot cs j with
        | mk a u =>
          rw [hsl] at this
          simp_all
    · have hji : i ≠ j := fun h => hnd'.1 (h ▸ hjr)
      split
      · show slot (processRehook _ rest) j = _
        rw [processRehook_mem rest _ j hnd'.2 hjr (by simpa using hlt),
          slot_set_ne cs _ hji]
      · exact processRehook_mem rest cs j hnd'.2 hjr hlt

theorem processUnhook_length :
    ∀ (l : List Nat) (cs : List PatchCount),
      (processUnhook cs l).length = cs.length
  | [], _ => rfl
  | i :: rest, cs => by
    simp only [processUnhook]
    simpa using (processUnhook_length rest _).trans (List.length_set ..)

theorem processUnhook_not_mem :
    ∀ (l : List Nat) (cs : List PatchCount) (j : Nat), j ∉ l →
      slot (processUnhook cs l) j = slot cs j
  | [], _, _, _ => rfl
  | i :: rest, cs, j, hj => by
    have hji : i ≠ j := fun h => hj (h ▸ List.mem_cons_self i rest)
    have hjr : j ∉ rest := fun h => hj (List.mem_cons_of_mem i h)
    simp only [processUnhook]
    show slot (processUnhook _ rest) j = _
    rw [processUnhook_not_mem rest _ j hjr, slot_set_ne cs _ hji]

theorem processUnhook_mem :
    ∀ (l : List Nat) (cs : List PatchCount) (j : Nat), l.Nodup → j ∈ l →
      j < cs.length →
      slot (processUnhook cs l) j =
        ⟨(slot cs j).activation, ((slot cs j).unhook + 1) % U64⟩
  | [], _, _, _, hj, _ => absurd hj (List.not_mem_nil _)
  | i :: rest, cs, j, hnd, hj, hlt => by
    have hnd' := hnd
    rw [List.nodup_cons] at hnd'
    simp only [processUnhook]
    rcases List.mem_cons.1 hj with hji | hjr
    · subst hji
      show slot (processUnhook _ rest) j = _
      rw [processUnhook_not_mem rest _ j hnd'.1, slot_set_self cs _ hlt]
      rfl
    · have hji : i ≠ j := fun h => hnd'.1 (h ▸ hjr)
      show slot (processUnhook _ rest) j = _
      rw [processUnhook_mem rest _ j hnd'.2 hjr (by simpa using hlt),
        slot_set_ne cs _ hji]

end DynamicFlag

namespace DynamicFlag

/-! ## Transfer to `activate_all` / `deactivate_all` / `unhook_all` /
`rehook_all` (the `qsort` by hook address is a permutation, and the loop
effects depend only on membership). -/

theorem sortByHook_perm (records : List PatchRecord) (arr : List Nat) :
    (sortByHook records arr).Perm arr :=
  List.perm_insertionSort _ arr

theorem sortByHook_nodup (records : List PatchRecord) {arr : List Nat}
    (h : arr.Nodup) : (sortByHook records arr).Nodup :=
  ((sortByHook_perm records arr).nodup_iff).mpr h

theorem sortByHook_mem (records : List PatchRecord) (arr : List Nat)
    (j : Nat) : j ∈ sortByHook records arr ↔ j ∈ arr :=
  (sortByHook_perm records arr).mem_iff

theorem activate_all_slot_mem (records : List PatchRecord)
    (cs : List PatchCount) (arr : List Nat) (j : Nat) (hnd : arr.Nodup)
    (hj : j ∈ arr) (hlt : j < cs.length) :
    slot (activate_all records cs arr).1 j =
      (if (slot cs j).unhook > 0 then slot cs j
       else ⟨((slot cs j).activation + 1) % U64, (slot cs j).unhook⟩) :=
  processActivate_fst_mem _ cs j (sortByHook_nodup records hnd)
    ((sortByHook_mem records arr j).mpr hj) hlt

theorem activate_all_slot_not_mem (records : List PatchRecord)
    (cs : List PatchCount) (arr : List Nat) (j : Nat) (hj : j ∉ arr) :
    slot (activate_all records cs arr).1 j = slot cs j :=
  processActivate_fst_not_mem _ cs j
    (fun h => hj ((sortByHook_mem records arr j).mp h))

theorem activate_all_patched_mem (records : List PatchRecord)
    (cs : List PatchCount) (arr : List Nat) (j : Nat) (hnd : arr.Nodup) :
    j ∈ (activate_all records cs arr).2 ↔
      j ∈ arr ∧ (slot cs j).unhook = 0 ∧ (slot cs j).activation = 0 := by
  rw [activate_all, processActivate_snd_mem _ cs j (sortByHook_nodup records hnd),
    sortByHook_mem]

theorem deactivate_all_slot_mem (records : List PatchRecord)
    (cs : List PatchCount) (arr : List Nat) (j : Nat) (hnd : arr.Nodup)
    (hj : j ∈ arr) (hlt : j < cs.length) :
    slot (deactivate_all records cs arr).1 j =
      (if (slot cs j).activation > 0
       then ⟨(slot cs j).activation - 1, (slot cs j).unhook⟩
       else slot cs j) :=
  processDeactivate_fst_mem _ cs j (sortByHook_nodup records hnd)
    ((sortByHook_mem records arr j).mpr hj) hlt

theorem deactivate_all_slot_not_mem (records : List PatchRecord)
    (cs : List PatchCount) (arr : List Nat) (j : Nat) (hj : j ∉ arr) :
    slot (deactivate_all records cs arr).1 j = slot cs j :=
  processDeactivate_fst_not_mem _ cs j
    (fun h => hj ((sortByHook_mem records arr j).mp h))

theorem deactivate_all_patched_mem (records : List PatchRecord)
    (cs : List PatchCount) (arr : List Nat) (j : Nat) (hnd : arr.Nodup) :
    j ∈ (deactivate_all records cs arr).2 ↔
      j ∈ arr ∧ (slot cs j).activation = 1 := by
  rw [deactivate_all,
    processDeactivate_snd_mem _ cs j (sortByHook_nodup records hnd),
    sortByHook_mem]

theorem unhook_all_slot_mem (cs : List PatchCount) (arr : List Nat)
    (j : Nat) (hnd : arr.Nodup) (hj : j ∈ arr) (hlt : j < cs.length) :
    slot (unhook_all cs arr) j =
      ⟨(slot cs j).activation, ((slot cs j).unhook + 1) % U64⟩ :=
  processUnhook_mem _ cs j hnd hj hlt

theorem rehook_all_slot_mem (cs : List PatchCount) (arr : List Nat)
    (j : Nat) (hnd : arr.Nodup) (hj : j ∈ arr) (hlt : j < cs.length) :
    slot (rehook_all cs arr) j =
      ⟨(slot cs j).activation, (slot cs j).unhook - 1⟩ :=
  processRehook_mem _ cs j hnd hj hlt

theorem rehook_all_length (cs : List PatchCount) (arr : List Nat) :
    (rehook_all cs arr).length = cs.length :=
  processRehook_length arr cs

end DynamicFlag

namespace DynamicFlag

/-! ## Claims about the counter state machine -/

/-- `k` successive rehook operations whose matched batch is exactly the
single record `j` (`rehook_all` applied to the singleton `patch_list`
`[j]`, `k` times). -/
def iterRehook (cs : List PatchCount) (j : Nat) : Nat → List PatchCount
  | 0 => cs
  | k + 1 => rehook_all (iterRehook cs j k) [j]

theorem iterRehook_length (cs : List PatchCount) (j : Nat) :
    ∀ k, (iterRehook cs j k).length = cs.length
  | 0 => rfl
  | k + 1 => (rehook_all_length ..).trans (iterRehook_length cs j k)

theorem iterRehook_slot (cs : List PatchCount) (j : Nat)
    (hlt : j < cs.length) :
    ∀ k, slot (iterRehook cs j k) j =
      ⟨(slot cs j).activation, (slot cs j).unhook - k⟩
  | 0 => rfl
  | k + 1 => by
    show slot (rehook_all (iterRehook cs j k) [j]) j = _
    rw [rehook_all_slot_mem _ _ j (by simp) (by simp)
        (by rw [iterRehook_length]; exact hlt),
      iterRehook_slot cs j hlt k]
    simp [Nat.sub_sub]

/-- **C3.** For every record whose unhook counter is greater than zero, a
matching activate is a no-op on that record: its activation counter is
unchanged and its instruction is not patched; after `k ≥ unhook` matching
rehook operations bring the unhook counter back to zero, a subsequent
matching activate increments the activation counter normally, and patches
the record exactly when the counter was `0` (the 0-to-1 transition). -/
theorem claim_C3 (records : List PatchRecord) (cs : List PatchCount)
    (arr : List Nat) (j k : Nat) (hnd : arr.Nodup) (hj : j ∈ arr)
    (hlt : j < cs.length) (hu : 0 < (slot cs j).unhook)
    (hk : (slot cs j).unhook ≤ k) :
    (slot (activate_all records cs arr).1 j = slot cs j ∧
      j ∉ (activate_all records cs arr).2) ∧
    ((slot (iterRehook cs j k) j).unhook = 0 ∧
      (slot (activate_all records (iterRehook cs j k) arr).1 j).activation =
        ((slot cs j).activation + 1) % U64 ∧
      (j ∈ (activate_all records (iterRehook cs j k) arr).2 ↔
        (slot cs j).activation = 0)) := by
  have hit := iterRehook_slot cs j hlt k
  have hitl := iterRehook_length cs j k
  have hz : (slot cs j).unhook - k = 0 := by omega
  constructor
  · constructor
    · rw [activate_all_slot_mem records cs arr j hnd hj hlt]
      simp [hu]
    · rw [activate_all_patched_mem records cs arr j hnd]
      rintro ⟨_, h2, _⟩
      omega
  · refine ⟨by rw [hit, hz], ?_, ?_⟩
    · rw [activate_all_slot_mem records _ arr j hnd hj (by omega), hit, hz]
      simp
    · rw [activate_all_patched_mem records _ arr j hnd, hit, hz]
      simp [hj]

/-- Witness for C3 at a concrete input: one record with activation `0` and
unhook depth `2`; two rehook operations re-enable it and the next activate
both increments the counter and patches the record. -/
theorem claim_C3_witness :
    (slot (activate_all [] [⟨0, 2⟩] [0]).1 0 = slot [⟨0, 2⟩] 0 ∧
      0 ∉ (activate_all [] [⟨0, 2⟩] [0]).2) ∧
    ((slot (iterRehook [⟨0, 2⟩] 0 2) 0).unhook = 0 ∧
      (slot (activate_all [] (iterRehook [⟨0, 2⟩] 0 2) [0]).1 0).activation =
        ((slot [⟨0, 2⟩] 0).activation + 1) % U64 ∧
      (0 ∈ (activate_all [] (iterRehook [⟨0, 2⟩] 0 2) [0]).2 ↔
        (slot [⟨0, 2⟩] 0).activation = 0)) :=
  claim_C3 [] [⟨0, 2⟩] [0] 0 2 (by decide) (by decide) (by decide)
    (by decide) (by decide)

/-- **C4.** Both counters are clamped at zero from below (and, being
naturals in the model of `uint64_t` values, never negative): a deactivate
on a matched record whose activation counter is zero leaves the slot
unchanged and patches nothing, and a rehook on a matched record whose
unhook counter is zero leaves the slot unchanged. -/
theorem claim_C4 (records : List PatchRecord) (cs : List PatchCount)
    (arr : List Nat) (j : Nat) (hnd : arr.Nodup) (hj : j ∈ arr)
    (hlt : j < cs.length) :
    ((slot cs j).activation = 0 →
      slot (deactivate_all records cs arr).1 j = slot cs j ∧
      j ∉ (deactivate_all records cs arr).2) ∧
    ((slot cs j).unhook = 0 →
      slot (rehook_all cs arr) j = slot cs j) := by
  constructor
  · intro ha
    constructor
    · rw [deactivate_all_slot_mem records cs arr j hnd hj hlt]
      simp [ha]
    · rw [deactivate_all_patched_mem records cs arr j hnd]
      rintro ⟨_, h2⟩
      omega
  · intro hu
    rw [rehook_all_slot_mem cs arr j hnd hj hlt]
    have h1 : (slot cs j).unhook - 1 = (slot cs j).unhook := by omega
    rw [h1]

/-- Witness for C4 at a concrete input: one record with both counters
zero; deactivate and rehook leave it untouched. -/
theorem claim_C4_witness :
    ((slot [(⟨0, 0⟩ : PatchCount)] 0).activation = 0 →
      slot (deactivate_all [] [⟨0, 0⟩] [0]).1 0 = slot [⟨0, 0⟩] 0 ∧
      0 ∉ (deactivate_all [] [⟨0, 0⟩] [0]).2) ∧
    ((slot [(⟨0, 0⟩ : PatchCount)] 0).unhook = 0 →
      slot (rehook_all [⟨0, 0⟩] [0]) 0 = slot [⟨0, 0⟩] 0) :=
  claim_C4 [] [⟨0, 0⟩] [0] 0 (by decide) (by decide) (by decide)

/-- **C5.** Instruction rewrites happen exactly on counter transitions:
for a duplicate-free matched batch, activate hands to the patch engine
exactly the matched records whose activation counter goes from 0 to 1
(not unhooked, previously zero), deactivate exactly those whose counter
goes from 1 to 0, and when every matched record is already active an
activate patches zero instructions. -/
theorem claim_C5 (records : List PatchRecord) (cs : List PatchCount)
    (arr : List Nat) (j : Nat) (hnd : arr.Nodup) :
    (j ∈ (activate_all records cs arr).2 ↔
      j ∈ arr ∧ (slot cs j).unhook = 0 ∧ (slot cs j).activation = 0) ∧
    (j ∈ (deactivate_all records cs arr).2 ↔
      j ∈ arr ∧ (slot cs j).activation = 1) ∧
    ((∀ i ∈ arr, 0 < (slot cs i).activation) →
      (activate_all records cs arr).2 = []) := by
  refine ⟨activate_all_patched_mem records cs arr j hnd,
    deactivate_all_patched_mem records cs arr j hnd, ?_⟩
  intro hall
  rw [List.eq_nil_iff_forall_not_mem]
  intro x hx
  rcases (activate_all_patched_mem records cs arr x hnd).1 hx with ⟨h1, _, h3⟩
  have := hall x h1
  omega

/-- Witness for C5 at a concrete input: a two-record batch where only the
record with activation `0` is patched, and a batch of already-active
records patches nothing. -/
theorem claim_C5_witness :
    (0 ∈ (activate_all [] [⟨0, 0⟩, ⟨4, 0⟩] [0, 1]).2 ↔
      0 ∈ [0, 1] ∧ (slot [⟨0, 0⟩, ⟨4, 0⟩] 0).unhook = 0 ∧
        (slot [⟨0, 0⟩, ⟨4, 0⟩] 0).activation = 0) ∧
    (0 ∈ (deactivate_all [] [⟨0, 0⟩, ⟨4, 0⟩] [0, 1]).2 ↔
      0 ∈ [0, 1] ∧ (slot [⟨0, 0⟩, ⟨4, 0⟩] 0).activation = 1) ∧
    ((∀ i ∈ [0, 1], 0 < (slot [(⟨0, 0⟩ : PatchCount), ⟨4, 0⟩] i).activation) →
      (activate_all [] [⟨0, 0⟩, ⟨4, 0⟩] [0, 1]).2 = []) :=
  claim_C5 [] [⟨0, 0⟩, ⟨4, 0⟩] [0, 1] 0 (by decide)

/-- **C7 counterexample.** The counters do not saturate at the top: a
record whose activation counter holds `2^64 - 1` is wrapped to `0` (not
left at the maximum) by a further activate, and likewise for the unhook
counter under a further unhook. -/
theorem claim_C7_counterexample :
    (slot (activate_all [] [⟨U64 - 1, 0⟩] [0]).1 0).activation = 0 ∧
    (slot (unhook_all [⟨0, U64 - 1⟩] [0]) 0).unhook = 0 ∧
    U64 - 1 ≠ 0 := by
  refine ⟨?_, ?_, by decide⟩ <;> rfl

/-- **C7 amended.** The activation and unhook counters are unsigned 64-bit
counters clamped at zero from below, but at the top they wrap modulo
`2^64` instead of saturating: activate on a matched, non-unhooked record
sets its activation counter to `(old + 1) mod 2^64`, and unhook sets the
unhook counter to `(old + 1) mod 2^64`, so from `2^64 - 1` a further
increment yields `0`. -/
theorem claim_C7_amended (records : List PatchRecord) (cs : List PatchCount)
    (arr : List Nat) (j : Nat) (hnd : arr.Nodup) (hj : j ∈ arr)
    (hlt : j < cs.length) (hu : (slot cs j).unhook = 0) :
    (slot (activate_all records cs arr).1 j).activation =
      ((slot cs j).activation + 1) % U64 ∧
    (slot (unhook_all cs arr) j).unhook =
      ((slot cs j).unhook + 1) % U64 := by
  constructor
  · rw [activate_all_slot_mem records cs arr j hnd hj hlt]
    simp [hu]
  · rw [unhook_all_slot_mem cs arr j hnd hj hlt]

/-- Witness for the amended C7 at the wrap point: both counters at
`2^64 - 1` are sent to `(2^64 - 1 + 1) mod 2^64 = 0`. -/
theorem claim_C7_amended_witness :
    (slot (activate_all [] [⟨U64 - 1, 0⟩] [0]).1 0).activation =
      ((slot [(⟨U64 - 1, 0⟩ : PatchCount)] 0).activation + 1) % U64 ∧
    (slot (unhook_all [⟨U64 - 1, 0⟩] [0]) 0).unhook =
      ((slot [(⟨U64 - 1, 0⟩ : PatchCount)] 0).unhook + 1) % U64 :=
  claim_C7_amended [] [⟨U64 - 1, 0⟩] [0] 0 (by decide) (by decide)
    (by decide) (by decide)

/-- **C10.** Deactivate is not gated by the unhook counter: even when a
matched record's unhook counter is positive, deactivate still decrements a
positive activation counter (leaving the unhook counter alone) and patches
the record exactly on the 1-to-0 transition. -/
theorem claim_C10 (records : List PatchRecord) (cs : List PatchCount)
    (arr : List Nat) (j : Nat) (hnd : arr.Nodup) (hj : j ∈ arr)
    (hlt : j < cs.length) ( _hu : 0 < (slot cs j).unhook)
    (ha : 0 < (slot cs j).activation) :
    (slot (deactivate_all records cs arr).1 j).activation =
      (slot cs j).activation - 1 ∧
    (slot (deactivate_all records cs arr).1 j).unhook =
      (slot cs j).unhook ∧
    (j ∈ (deactivate_all records cs arr).2 ↔
      (slot cs j).activation = 1) := by
  rw [deactivate_all_slot_mem records cs arr j hnd hj hlt,
    deactivate_all_patched_mem records cs arr j hnd]
  simp [ha, hj]

/-- Witness for C10 at a concrete input: a record with activation `1` and
unhook depth `3` is still deactivated (1 → 0) and patched. -/
theorem claim_C10_witness :
    (slot (deactivate_all [] [⟨1, 3⟩] [0]).1 0).activation =
      (slot [(⟨1, 3⟩ : PatchCount)] 0).activation - 1 ∧
    (slot (deactivate_all [] [⟨1, 3⟩] [0]).1 0).unhook =
      (slot [(⟨1, 3⟩ : PatchCount)] 0).unhook ∧
    (0 ∈ (deactivate_all [] [⟨1, 3⟩] [0]).2 ↔
      (slot [(⟨1, 3⟩ : PatchCount)] 0).activation = 1) :=
  claim_C10 [] [⟨1, 3⟩] [0] 0 (by decide) (by decide) (by decide)
    (by decide) (by decide)

end DynamicFlag

namespace DynamicFlag

/-! ## Claims about the public entry points -/

theorem initCounts_length :
    ∀ (records : List PatchRecord) (cs : List PatchCount),
      initCounts records = some cs → cs.length = records.length
  | [], cs, h => by
    simp only [initCounts, Option.some.injEq] at h
    subst h
    rfl
  | r :: rest, cs, h => by
    simp only [initCounts] at h
    cases hd : default_patch_count r with
    | none => rw [hd] at h; exact absurd h (by simp)
    | some c =>
      cases hi : initCounts rest with
      | none => rw [hd, hi] at h; exact absurd h (by simp)
      | some cs' =>
        rw [hd, hi, Option.some.injEq] at h
        subst h
        simp [initCounts_length rest cs' hi]

/-- A one-record sample table used by the concrete witnesses. -/
def sampleRecords : List PatchRecord :=
  [⟨4096, 8192, "k:n@f:9".toList, [], DYNAMIC_FLAG_VALUE_INACTIVE, 0⟩]

/-- **C6.** Each of activate, deactivate, unhook and rehook returns the
number of records matched by the pattern (the size of the `find_records`
accumulator, not the number of instructions actually patched); when the
pattern fails to compile, each returns `-1` (negative) with the counter
state unchanged and no machine code touched. -/
theorem claim_C6 (records : List PatchRecord) (cs : List PatchCount)
    (pattern : List Char) (h : 0 < cs.length) :
    (compile_regex pattern = none →
      dynamic_flag_activate records (some cs) pattern = some ⟨-1, some cs, []⟩ ∧
      dynamic_flag_deactivate records (some cs) pattern = some ⟨-1, some cs, []⟩ ∧
      dynamic_flag_unhook records (some cs) pattern = some ⟨-1, some cs, []⟩ ∧
      dynamic_flag_rehook records (some cs) pattern = some ⟨-1, some cs, []⟩ ∧
      (-1 : Int) < 0) ∧
    (∀ matched, find_records records pattern = some matched →
      (dynamic_flag_activate records (some cs) pattern).map CallResult.ret =
        some (matched.length : Int) ∧
      (dynamic_flag_deactivate records (some cs) pattern).map CallResult.ret =
        some (matched.length : Int) ∧
      (dynamic_flag_unhook records (some cs) pattern).map CallResult.ret =
        some (matched.length : Int) ∧
      (dynamic_flag_rehook records (some cs) pattern).map CallResult.ret =
        some (matched.length : Int)) := by
  have h0 : ¬cs.length = 0 := by omega
  constructor
  · intro hc
    have hf : find_records records pattern = none := by
      simp [find_records, hc]
    refine ⟨?_, ?_, ?_, ?_, by omega⟩ <;>
      simp [dynamic_flag_activate, dynamic_flag_deactivate,
        dynamic_flag_unhook, dynamic_flag_rehook, countsSize, h0, hf]
  · intro matched hm
    refine ⟨?_, ?_, ?_, ?_⟩ <;>
      simp [dynamic_flag_activate, dynamic_flag_deactivate,
        dynamic_flag_unhook, dynamic_flag_rehook, countsSize, h0, hm, lock]

/-- Witness for C6 at concrete inputs: the invalid pattern `"*"` makes
activate return `-1` without touching the state, and the valid pattern
`"k"` makes it return the matched count `1` even though zero instructions
are patched (the single record is already active). -/
theorem claim_C6_witness :
    dynamic_flag_activate sampleRecords (some [⟨1, 0⟩]) ['*'] =
      some ⟨-1, some [⟨1, 0⟩], []⟩ ∧
    (dynamic_flag_activate sampleRecords (some [⟨1, 0⟩]) ['k']).map
      CallResult.ret = some (1 : Int) := by
  constructor
  · exact ((claim_C6 sampleRecords [⟨1, 0⟩] ['*'] (by decide)).1 (by decide)).1
  · exact ((claim_C6 sampleRecords [⟨1, 0⟩] ['k'] (by decide)).2 [0]
      (by decide)).1

/-- **C2 counterexample.** In the pristine library state
(`counts.data == NULL`, `counts.size == 0`), the very first library call
being a mutator or `list_state` trips the `counts.size > 0` assertion in
`patch_list_create` (modelled as `none`) instead of completing: every
public entry point executes `patch_list_create` before the lazy
initialisation in `lock()`.  Only `dynamic_flag_init_lib` reaches the lazy
construction. -/
theorem claim_C2_counterexample :
    dynamic_flag_activate sampleRecords none ['k'] = none ∧
    dynamic_flag_deactivate sampleRecords none ['k'] = none ∧
    dynamic_flag_unhook sampleRecords none ['k'] = none ∧
    dynamic_flag_rehook sampleRecords none ['k'] = none ∧
    dynamic_flag_list_state sampleRecords none ['k'] = none ∧
    dynamic_flag_init_lib sampleRecords none = some (some [⟨0, 0⟩]) := by
  refine ⟨rfl, rfl, rfl, rfl, rfl, by decide⟩

/-- **C2 amended.** A mutator (or `list_state`) invoked as the process's
very first library call trips the `counts.size > 0` assertion in
`patch_list_create`, which every public entry point executes before the
lazy initialisation in `lock()`; the counter array is constructed through
`dynamic_flag_init_lib`, and once the (non-empty) array exists every
mutator and `list_state` call completes without tripping the assertion. -/
theorem claim_C2_amended (records : List PatchRecord) (pattern : List Char)
    (cs0 : List PatchCount) (hinit : initCounts records = some cs0)
    (hne : records ≠ []) :
    dynamic_flag_init_lib records none = some (some cs0) ∧
    cs0.length = records.length ∧
    dynamic_flag_activate records none pattern = none ∧
    (dynamic_flag_activate records (some cs0) pattern).isSome ∧
    (dynamic_flag_deactivate records (some cs0) pattern).isSome ∧
    (dynamic_flag_unhook records (some cs0) pattern).isSome ∧
    (dynamic_flag_rehook records (some cs0) pattern).isSome ∧
    (dynamic_flag_list_state records (some cs0) pattern).isSome := by
  have hlen := initCounts_length records cs0 hinit
  have h0 : ¬cs0.length = 0 := by
    rw [hlen]
    simpa [List.length_eq_zero] using hne
  refine ⟨by simp [dynamic_flag_init_lib, lock, hinit], hlen,
    by simp [dynamic_flag_activate, countsSize], ?_, ?_, ?_, ?_, ?_⟩ <;>
    cases hfr : find_records records pattern <;>
      simp [dynamic_flag_activate, dynamic_flag_deactivate,
        dynamic_flag_unhook, dynamic_flag_rehook, dynamic_flag_list_state,
        countsSize, h0, hfr, lock]

/-- Witness for the amended C2 at a concrete input: one record; init_lib
builds the one-slot counter array and a subsequent activate completes. -/
theorem claim_C2_amended_witness :
    dynamic_flag_init_lib sampleRecords none = some (some [⟨0, 0⟩]) ∧
    (List.length [(⟨0, 0⟩ : PatchCount)]) = sampleRecords.length ∧
    dynamic_flag_activate sampleRecords none ['k'] = none ∧
    (dynamic_flag_activate sampleRecords (some [⟨0, 0⟩]) ['k']).isSome ∧
    (dynamic_flag_deactivate sampleRecords (some [⟨0, 0⟩]) ['k']).isSome ∧
    (dynamic_flag_unhook sampleRecords (some [⟨0, 0⟩]) ['k']).isSome ∧
    (dynamic_flag_rehook sampleRecords (some [⟨0, 0⟩]) ['k']).isSome ∧
    (dynamic_flag_list_state sampleRecords (some [⟨0, 0⟩]) ['k']).isSome :=
  claim_C2_amended sampleRecords ['k'] [⟨0, 0⟩] (by decide) (by decide)

end DynamicFlag

namespace DynamicFlag

/-! ## Claims about regex-based selection -/

/-- The matching test `find_records` applies to one flag name: compile the
pattern with `compile_regex` and run `regexec` on the name; a pattern that
fails to compile matches nothing (the call errors out instead). -/
def patternMatches (pattern s : List Char) : Bool :=
  match compile_regex pattern with
  | some re => regexecModel re s
  | none => false

theorem starLoop_of_k (a : EREAtom) (k : List Char → Bool) (s : List Char)
    (h : k s = true) : starLoop a k s = true := by
  cases s with
  | nil => exact h
  | cons c s => simp [starLoop, h]

theorem starLoop_append (a : EREAtom) (k : List Char → Bool)
    (mono : ∀ s ext, k s = true → k (s ++ ext) = true) :
    ∀ (s ext : List Char), starLoop a k s = true →
      starLoop a k (s ++ ext) = true
  | [], ext, h => starLoop_of_k a k ext (mono [] ext h)
  | c :: s, ext, h => by
    simp only [starLoop, Bool.or_eq_true, Bool.and_eq_true] at h
    rcases h with h | ⟨h1, h2⟩
    · simpa [starLoop, Bool.or_eq_true] using
        Or.inl (mono (c :: s) ext h)
    · simpa [starLoop, Bool.or_eq_true, Bool.and_eq_true] using
        Or.inr ⟨h1, starLoop_append a k mono s ext h2⟩

theorem matchSeq_append :
    ∀ (re : List (EREAtom × Bool)) (s ext : List Char),
      matchSeq re s = true → matchSeq re (s ++ ext) = true
  | [], _, _, _ => rfl
  | (_, false) :: _, [], _, h => absurd h (by simp [matchSeq])
  | (a, false) :: re, c :: s, ext, h => by
    simp only [matchSeq, Bool.and_eq_true] at h ⊢
    exact ⟨h.1, matchSeq_append re s ext h.2⟩
  | (a, true) :: re, s, ext, h => by
    simp only [matchSeq] at h ⊢
    exact starLoop_append a (matchSeq re)
      (fun u v hu => matchSeq_append re u v hu) s ext h

theorem searchSeq_of_matchSeq (re : List (EREAtom × Bool)) (s : List Char)
    (h : matchSeq re s = true) : searchSeq re s = true := by
  cases s with
  | nil => exact h
  | cons c s => simp [searchSeq, h]

theorem searchSeq_append (re : List (EREAtom × Bool)) :
    ∀ (s ext : List Char), searchSeq re s = true →
      searchSeq re (s ++ ext) = true
  | [], ext, h =>
    searchSeq_of_matchSeq re ext (matchSeq_append re [] ext h)
  | c :: s, ext, h => by
    simp only [searchSeq, Bool.or_eq_true] at h
    rcases h with h | h
    · simpa [searchSeq, Bool.or_eq_true] using
        Or.inl (matchSeq_append re (c :: s) ext h)
    · simpa [searchSeq, Bool.or_eq_true] using
        Or.inr (searchSeq_append re s ext h)

/-- **C9.** Record selection is implicitly left-anchored but never
right-anchored: a pattern that does not begin with `^` selects exactly the
records that `^` + pattern selects (both as a per-name matching test and
through `find_records`); a name that matches still matches after any
suffix is appended (no implicit right anchor); and concretely the pattern
`"printf1"` does not match the flag name `"off:printf1@t/feature_flags.c:35"`
while `".*printf1"` does. -/
theorem claim_C9 (records : List PatchRecord) (p s ext : List Char)
    (hhd : p.head? ≠ some '^') :
    patternMatches p s = patternMatches ('^' :: p) s ∧
    find_records records p = find_records records ('^' :: p) ∧
    (patternMatches p s = true → patternMatches p (s ++ ext) = true) ∧
    patternMatches "printf1".toList
      "off:printf1@t/feature_flags.c:35".toList = false ∧
    patternMatches ".*printf1".toList
      "off:printf1@t/feature_flags.c:35".toList = true := by
  have hcomp : compile_regex p = compile_regex ('^' :: p) := by
    simp [compile_regex, hhd]
  refine ⟨by rw [patternMatches, patternMatches, hcomp],
    by rw [find_records, find_records, hcomp], ?_, by decide, by decide⟩
  cases hc : compile_regex p with
  | none => intro h; simp [patternMatches, hc] at h
  | some re =>
    intro h
    simp only [patternMatches, hc] at h ⊢
    rw [regexecModel] at h ⊢
    by_cases ha : re.anchored
    · simp only [ha, if_true] at h ⊢
      exact matchSeq_append re.atoms s ext h
    · simp only [ha, if_false] at h ⊢
      exact searchSeq_append re.atoms s ext h

/-- Witness for C9 at concrete inputs: the pattern `"k"`, the name
`"k:n@f:9"` and the suffix `"z"`. -/
theorem claim_C9_witness :
    patternMatches "k".toList "k:n@f:9".toList =
      patternMatches ('^' :: "k".toList) "k:n@f:9".toList ∧
    find_records sampleRecords "k".toList =
      find_records sampleRecords ('^' :: "k".toList) ∧
    (patternMatches "k".toList "k:n@f:9".toList = true →
      patternMatches "k".toList ("k:n@f:9".toList ++ "z".toList) = true) ∧
    patternMatches "printf1".toList
      "off:printf1@t/feature_flags.c:35".toList = false ∧
    patternMatches ".*printf1".toList
      "off:printf1@t/feature_flags.c:35".toList = true :=
  claim_C9 sampleRecords "k".toList "k:n@f:9".toList "z".toList (by decide)

end DynamicFlag

namespace DynamicFlag

/-! ## Claims about the listing -/

/-- The property C8 claims of the `duplicate` field: an entry is flagged
as a duplicate exactly when some earlier entry of the same listing carries
an identical full flag name. -/
def duplicateIffEarlier (out : List FlagState) : Prop :=
  ∀ i, i < out.length →
    ((out.getD i default).duplicate = true ↔
      ∃ j, j < i ∧ (out.getD j default).name = (out.getD i default).name)

instance (out : List FlagState) : Decidable (duplicateIffEarlier out) := by
  unfold duplicateIffEarlier
  infer_instance

/-- Three records exercising the docstring tie-break of
`cmp_patches_alpha`: two share the full name `a:f:1` but carry docstrings
of different lengths, and a record named `a:f:2` with a long docstring
sorts between them. -/
def C8records : List PatchRecord :=
  [⟨1, 0, "a:f:1".toList, "xx".toList, DYNAMIC_FLAG_VALUE_INACTIVE, 0⟩,
   ⟨2, 0, "a:f:2".toList, "xx".toList, DYNAMIC_FLAG_VALUE_INACTIVE, 0⟩,
   ⟨3, 0, "a:f:1".toList, "x".toList, DYNAMIC_FLAG_VALUE_INACTIVE, 0⟩]

/-- The listing `dynamic_flag_list_state` produces for `C8records` (all
counters zero, empty pattern). -/
def C8listing : List FlagState :=
  [⟨"a:f:1".toList, "xx".toList, 0, 0, 1, 0, false⟩,
   ⟨"a:f:2".toList, "xx".toList, 0, 0, 2, 0, false⟩,
   ⟨"a:f:1".toList, "x".toList, 0, 0, 3, 0, false⟩]

/-- **C8 counterexample.** In the sorted output of `list_state` the
`duplicate` flag only reflects the immediately preceding entry, not every
earlier entry: with `C8records`, the sort order interleaves `a:f:2`
between the two entries named `a:f:1` (longer docstrings first), so the
third entry shares its full name with the first yet carries
`duplicate = false`. -/
theorem claim_C8_counterexample :
    dynamic_flag_list_state C8records (some [⟨0, 0⟩, ⟨0, 0⟩, ⟨0, 0⟩]) [] =
      some (3, C8listing) ∧
    (C8listing.getD 0 default).name = (C8listing.getD 2 default).name ∧
    ¬ duplicateIffEarlier C8listing := by
  refine ⟨by decide, by decide, by decide⟩

theorem getD_range_map {α : Type} (f : Nat → α) (n i : Nat) (d : α)
    (h : i < n) : ((List.range n).map f).getD i d = f i := by
  simp [List.getD, List.getElem?_map, List.getElem?_range, h]

/-- **C8 amended.** In the sorted output of `list_state`, the `duplicate`
field of an entry is true iff the *immediately preceding* entry of the
listing has an identical full flag name (`strcmp == 0`); the first entry
always has `duplicate = false`.  (When identically-named entries are
adjacent — e.g. exact duplicates from macro inlining, which share
docstrings — this coincides with "some earlier entry has the same name".) -/
theorem claim_C8_amended (records : List PatchRecord) (st : LibState)
    (pattern : List Char) (ret : Int) (out : List FlagState)
    (h : dynamic_flag_list_state records st pattern = some (ret, out)) :
    ∀ i, i < out.length →
      ((out.getD i default).duplicate = true ↔
        (0 < i ∧ strcmpS (out.getD (i - 1) default).name
          (out.getD i default).name = 0)) := by
  rw [dynamic_flag_list_state] at h
  split at h
  · exact absurd h (by simp)
  · cases hfr : find_records records pattern with
    | none =>
      rw [hfr] at h
      simp only [Option.some.injEq, Prod.mk.injEq] at h
      rw [← h.2]
      intro i hi
      simp at hi
    | some matched =>
      rw [hfr] at h
      cases hlk : lock records st with
      | none => rw [hlk] at h; exact absurd h (by simp)
      | some cs =>
        rw [hlk] at h
        simp only [Option.some.injEq, Prod.mk.injEq] at h
        rw [← h.2]
        intro i hi
        rw [List.length_map, List.length_range] at hi
        rw [getD_range_map _ _ _ _ hi]
        rcases Nat.eq_zero_or_pos i with hz | hpos
        · subst hz
          simp [listEntry]
        · have hi1 : i - 1 < (sortAlpha records matched).length := by omega
          rw [getD_range_map _ _ _ _ hi1]
          simp only [listEntry, Bool.and_eq_true, decide_eq_true_eq]

/-- Witness for the amended C8: the predecessor characterisation evaluated
on the third entry of the `C8records` listing (its predecessor is the
interleaved `a:f:2`, so `duplicate` is false there). -/
theorem claim_C8_amended_witness :
    (C8listing.getD 2 default).duplicate = true ↔
      (0 < 2 ∧ strcmpS (C8listing.getD 1 default).name
        (C8listing.getD 2 default).name = 0) :=
  claim_C8_amended C8records (some [⟨0, 0⟩, ⟨0, 0⟩, ⟨0, 0⟩]) [] 3 C8listing
    (by decide) 2 (by decide)

end DynamicFlag

namespace DynamicFlag

/-! ## Claims about the batched patch engine -/

theorem uadd1_eq {x : Nat} (h : x + 1 < U64) : uadd1 x = x + 1 := by
  rw [uadd1, Nat.mod_eq_of_lt h]

theorem usub1_eq {x : Nat} (h1 : 1 ≤ x) (h2 : x < U64) :
    usub1 x = x - 1 := by
  have hU : 0 < U64 := Nat.pos_pow_of_pos 64 (by omega)
  have hx : x + (U64 - 1) = (x - 1) + U64 := by omega
  rw [usub1, hx, Nat.add_mod_right, Nat.mod_eq_of_lt (by omega)]

theorem usub1_zero : usub1 0 = U64 - 1 := by
  have hU : 0 < U64 := Nat.pos_pow_of_pos 64 (by omega)
  rw [usub1, Nat.zero_add, Nat.mod_eq_of_lt (by omega)]

theorem UINTPTR_MAX_lt_U64 : UINTPTR_MAX < U64 := by
  have hU : 0 < U64 := Nat.pos_pow_of_pos 64 (by omega)
  rw [UINTPTR_MAX]
  omega

/-- Coverage invariant for the documented `amortize` variant: every page
of every emitted `mprotect` range lies inside the page interval of one of
that batch's own hooks. -/
theorem amortizeLoopDoc_coverage (ps : Nat) (hps : 0 < ps) :
    ∀ (hooks : List Nat) (fp lp : Nat) (sec : List Nat),
      (∀ h ∈ hooks, (h + HOOK_SIZE - 1) / ps < UINTPTR_MAX) →
      ((sec = [] ∧ fp = UINTPTR_MAX ∧ lp = 0) ∨
        (sec ≠ [] ∧ fp ≤ lp ∧ lp < UINTPTR_MAX ∧
          ∀ p, fp ≤ p → p ≤ lp →
            ∃ h ∈ sec, h / ps ≤ p ∧ p ≤ (h + HOOK_SIZE - 1) / ps)) →
      ∀ b ∈ amortizeLoop mergeCondDoc ps hooks fp lp sec,
        ∀ p, b.firstPage ≤ p → p ≤ b.lastPage →
          ∃ h ∈ b.hooks, h / ps ≤ p ∧ p ≤ (h + HOOK_SIZE - 1) / ps
  | [], fp, lp, sec, _, hinv, b, hb, p, hp1, hp2 => by
    rcases hinv with ⟨hsec, _, _⟩ | ⟨hsec, _, _, hcov⟩
    · subst hsec
      simp [amortizeLoop] at hb
    · simp only [amortizeLoop, List.isEmpty_iff, hsec, if_false,
        List.mem_singleton] at hb
      subst hb
      rcases hcov p hp1 hp2 with ⟨h, hh, hc1, hc2⟩
      exact ⟨h, List.mem_reverse.mpr hh, hc1, hc2⟩
  | h :: rest, fp, lp, sec, hbound, hinv, b, hb, p, hp1, hp2 => by
    have hbh := hbound h (List.mem_cons_self h rest)
    have hbr : ∀ x ∈ rest, (x + HOOK_SIZE - 1) / ps < UINTPTR_MAX :=
      fun x hx => hbound x (List.mem_cons_of_mem h hx)
    have hbe : h / ps ≤ (h + HOOK_SIZE - 1) / ps :=
      Nat.div_le_div_right (by rw [HOOK_SIZE]; omega)
    rcases hinv with ⟨hsec, hfp, hlp⟩ | ⟨hsec, hfl, hlU, hcov⟩
    · subst hsec hfp hlp
      have hm : mergeCondDoc UINTPTR_MAX 0 (h / ps)
          ((h + HOOK_SIZE - 1) / ps) = true := by
        have hU2 : 2 ≤ U64 := by
          rw [U64]
          exact Nat.le_self_pow (by omega) 2
        simp only [mergeCondDoc, Bool.or_eq_true, decide_eq_true_eq]
        left
        rw [UINTPTR_MAX]
        omega
      rw [amortizeLoop] at hb
      simp only [hm, if_true] at hb
      have hmin : min UINTPTR_MAX (h / ps) = h / ps :=
        Nat.min_eq_right (le_of_lt (lt_of_le_of_lt hbe hbh))
      have hmax : max 0 ((h + HOOK_SIZE - 1) / ps) =
          (h + HOOK_SIZE - 1) / ps := Nat.max_eq_right (Nat.zero_le _)
      rw [hmin, hmax] at hb
      refine amortizeLoopDoc_coverage ps hps rest _ _ _ hbr ?_ b hb p hp1 hp2
      right
      exact ⟨by simp, hbe, hbh, fun q hq1 hq2 =>
        ⟨h, List.mem_singleton.mpr rfl, hq1, hq2⟩⟩
    · by_cases hm : mergeCondDoc fp lp (h / ps)
          ((h + HOOK_SIZE - 1) / ps) = true
      · rw [amortizeLoop] at hb
        simp only [hm, if_true] at hb
        simp only [mergeCondDoc, Bool.or_eq_true, Bool.and_eq_true,
          decide_eq_true_eq] at hm
        rcases hm with hm | ⟨hm1, hm2⟩
        · omega
        · have hUlt := UINTPTR_MAX_lt_U64
          have hu1 : uadd1 lp = lp + 1 := uadd1_eq (by omega)
          rw [hu1] at hm2
          have hfp1 : 1 ≤ fp := by
            by_contra hz
            have : fp = 0 := by omega
            subst this
            rw [usub1_zero] at hm1
            omega
          rw [usub1_eq hfp1 (by omega)] at hm1
          refine amortizeLoopDoc_coverage ps hps rest _ _ _ hbr ?_ b hb p hp1 hp2
          right
          refine ⟨by simp, by omega, by omega, ?_⟩
          intro q hq1 hq2
          rcases le_or_lt fp q with hfq | hfq
          · rcases le_or_lt q lp with hql | hql
            · rcases hcov q hfq hql with ⟨x, hx, hx1, hx2⟩
              exact ⟨x, List.mem_cons_of_mem h hx, hx1, hx2⟩
            · exact ⟨h, List.mem_cons_self h sec, by omega, by omega⟩
          · exact ⟨h, List.mem_cons_self h sec, by omega, by omega⟩
      · have hmf : mergeCondDoc fp lp (h / ps)
            ((h + HOOK_SIZE - 1) / ps) = false := by
          simpa using hm
        rw [amortizeLoop] at hb
        simp only [hmf, Bool.false_eq_true, if_false, List.isEmpty_iff,
          hsec, List.mem_append, List.mem_singleton] at hb
        rcases hb with hb1 | hb2
        · subst hb1
          rcases hcov p hp1 hp2 with ⟨x, hx, hx1, hx2⟩
          exact ⟨x, List.mem_reverse.mpr hx, hx1, hx2⟩
        · refine amortizeLoopDoc_coverage ps hps rest _ _ _ hbr ?_ b hb2 p hp1 hp2
          right
          exact ⟨by simp, hbe, hbh, fun q hq1 hq2 =>
            ⟨h, List.mem_singleton.mpr rfl, hq1, hq2⟩⟩

/-- The documented `amortize` variant never makes a page writable that is
not occupied by one of the batch's own hook instructions (in particular
every writable page is within one page of a selected record). -/
theorem amortizeDoc_coverage (ps : Nat) (hps : 0 < ps) (hooks : List Nat)
    (hbound : ∀ h ∈ hooks, (h + HOOK_SIZE - 1) / ps < UINTPTR_MAX) :
    ∀ b ∈ amortizeDoc ps hooks, ∀ p, b.firstPage ≤ p → p ≤ b.lastPage →
      ∃ h ∈ b.hooks, h / ps ≤ p ∧ p ≤ (h + HOOK_SIZE - 1) / ps :=
  amortizeLoopDoc_coverage ps hps hooks UINTPTR_MAX 0 [] hbound
    (Or.inl ⟨rfl, rfl, rfl⟩)

/-- **C1 (code bug).** `amortize` as compiled in `src/dynamic_flag.c`
merges two sorted records whose hooks sit on pages 10 and 100 (page size
4096, a gap of 89 pages) into a single `mprotect` batch covering pages
10-100: once the accumulated range is non-empty, the first disjunct of its
merge condition `(first_page - 1) <= begin_page || end_page <=
(last_page + 1)` is always true for address-sorted records, so gap pages
such as page 50 — more than one page away from every selected record — are
made writable.  The repository's documented variant of the same function
(`empty_range || can_extend`, using `&&`) instead starts a new batch, as
the claim requires. -/
theorem claim_C1_theorem :
    amortizeSrc 4096 [10 * 4096, 100 * 4096] =
      [⟨10, 100, [10 * 4096, 100 * 4096]⟩] ∧
    amortizeDoc 4096 [10 * 4096, 100 * 4096] =
      [⟨10, 10, [10 * 4096]⟩, ⟨100, 100, [100 * 4096]⟩] ∧
    (∀ h ∈ [10 * 4096, 100 * 4096],
      (hookPages 4096 h).2 + 1 < 50 ∨ 50 + 1 < (hookPages 4096 h).1) := by
  refine ⟨by decide, by decide, by decide⟩

end DynamicFlag
